import Mathlib

/-
Verification of the RSIMA repository's indicator engine and trade simulator.

Shallow embedding of `src/rsi_of_ma_strategy.py` (functions `ema`, `rsi`,
`compute_indicators`, `generate_trades`) and `src/fit_rsi_rule_to_oracle.py`
(function `simulate_band`).  Prices and dates are rationals; a pandas
NaN/missing float is `Option.none`.  Comparisons against NaN are false, as
in pandas, which the `opt*` comparison helpers encode.
-/

attribute [local semireducible] Rat.add Rat.mul Rat.sub Rat.inv Rat.ofScientific

namespace RSIMA

/-- One daily bar of the input price table.  Only the columns the strategy
code reads (`date`, `Open`, `Close`) are modelled; the remaining columns
(`High`, `Low`, `Volume`) are carried through the pipeline unread. -/
structure Bar where
  date : ℚ
  Open : ℚ
  Close : ℚ
deriving DecidableEq, Repr, Inhabited

/-- Running state of pandas `Series.ewm(span=length, adjust=False).mean()`:
`weighted` is the current mean (none before the first non-NaN observation),
`old_wt` the accumulated weight of that mean (it decays by `1-α` across
NaN gaps because `ignore_na=False` by default). -/
structure EwmState where
  weighted : Option ℚ
  old_wt : ℚ
deriving DecidableEq, Repr

/-- One step of the pandas exponentially weighted mean with `adjust=False`.
With no NaNs this is `w ↦ (1-α)·w + α·x`, since `old_wt` is 1 after every
observation and `((1-α)·w + α·x)/((1-α)+α)` has denominator 1. -/
def ewmStep (a : ℚ) (s : EwmState) (x : Option ℚ) : EwmState :=
  match s.weighted, x with
  | some w, some c =>
    let ow := s.old_wt * (1 - a)
    { weighted := some ((ow * w + a * c) / (ow + a)), old_wt := 1 }
  | some w, none => { weighted := some w, old_wt := s.old_wt * (1 - a) }
  | none, some c => { weighted := some c, old_wt := s.old_wt }
  | none, none => s

/-- Runs the exponentially weighted mean over a series, emitting the mean
after each element (pandas emits the carried-forward mean at NaN inputs
once at least one observation has been seen, and NaN before that). -/
def ewmRun (a : ℚ) (s : EwmState) : List (Option ℚ) → List (Option ℚ)
  | [] => []
  | x :: xs =>
    let t := ewmStep a s x
    t.weighted :: ewmRun a t xs

/-- Embedding of the source's `ema(series, length)`, i.e.
`series.ewm(span=length, adjust=False).mean()` with `α = 2/(length+1)`. -/
def ema (series : List (Option ℚ)) (length : ℕ) : List (Option ℚ) :=
  ewmRun (2 / ((length : ℚ) + 1)) { weighted := none, old_wt := 1 } series

/-- Embedding of pandas `series.diff()`: element `i` is `x[i] - x[i-1]`,
NaN at index 0 and wherever either operand is NaN. -/
def diffO (xs : List (Option ℚ)) : List (Option ℚ) :=
  (List.range xs.length).map fun i =>
    if i = 0 then none
    else
      match xs.getD i none, xs.getD (i - 1) none with
      | some a, some b => some (a - b)
      | _, _ => none

/-- Embedding of `delta.where(delta > 0, 0)`: the condition `NaN > 0` is
false in pandas, so a NaN delta is replaced by 0 as well. -/
def gainOf : Option ℚ → ℚ
  | some v => if 0 < v then v else 0
  | none => 0

/-- Embedding of `(-delta.where(delta < 0, 0))`: the loss magnitude,
0 where the delta is nonnegative or NaN. -/
def lossOf : Option ℚ → ℚ
  | some v => if v < 0 then -v else 0
  | none => 0

/-- Embedding of `series.rolling(w).mean()` read at index `i`: NaN until
the window is full (`min_periods` defaults to the window size), then the
arithmetic mean of the last `w` elements.  The inputs it is applied to
(gain and loss series) contain no NaNs. -/
def rollMean (w : ℕ) (xs : List ℚ) (i : ℕ) : Option ℚ :=
  if i + 1 < w then none
  else some (((xs.drop (i + 1 - w)).take w).sum / (w : ℚ))

/-- The pointwise value `100 - 100/(1 + gain/loss)` under float semantics,
for `gain` and `loss` that are means of nonnegative series (so both are
nonnegative).  `loss = 0, gain > 0` gives `rs = +inf` and hence 100;
`loss = 0, gain = 0` gives `rs = 0/0 = NaN`, propagated to a NaN result. -/
def rsiPoint (g l : ℚ) : Option ℚ :=
  if l = 0 then (if g = 0 then none else some 100)
  else some (100 - 100 / (1 + g / l))

/-- Embedding of the source's `rsi(series, length)`: gains and losses from
`diff`, rolling means over `length` bars, then `100 - 100/(1 + rs)`. -/
def rsi (series : List (Option ℚ)) (length : ℕ) : List (Option ℚ) :=
  let ds := diffO series
  let gains := ds.map gainOf
  let losses := ds.map lossOf
  (List.range series.length).map fun i =>
    match rollMean length gains i, rollMean length losses i with
    | some g, some l => rsiPoint g l
    | _, _ => none

/-- One row of the indicator-annotated frame produced by
`compute_indicators`.  The source adds exactly the columns `ma`, `rsi_ma`,
`rsi_signal`, `cross_up`, `cross_down` to the input frame; it produces no
`trend_ma`, `uptrend` or `downtrend` column. -/
structure IndRow where
  date : ℚ
  Open : ℚ
  Close : ℚ
  ma : Option ℚ
  rsi_ma : Option ℚ
  rsi_signal : Option ℚ
  cross_up : Bool
  cross_down : Bool
deriving DecidableEq, Repr, Inhabited

/-- Pandas `a > b` on possibly-NaN floats: false if either side is NaN. -/
def optGT : Option ℚ → Option ℚ → Bool
  | some a, some b => decide (b < a)
  | _, _ => false

/-- Pandas `a < b` on possibly-NaN floats: false if either side is NaN. -/
def optLT : Option ℚ → Option ℚ → Bool
  | some a, some b => decide (a < b)
  | _, _ => false

/-- Pandas `a <= b` on possibly-NaN floats: false if either side is NaN. -/
def optLE : Option ℚ → Option ℚ → Bool
  | some a, some b => decide (a ≤ b)
  | _, _ => false

/-- Pandas `a >= b` on possibly-NaN floats: false if either side is NaN. -/
def optGE : Option ℚ → Option ℚ → Bool
  | some a, some b => decide (b ≤ a)
  | _, _ => false

/-- Pandas `series.shift(1)` read at index `i`: NaN at index 0, the value
at `i-1` otherwise. -/
def shiftAt (xs : List (Option ℚ)) (i : ℕ) : Option ℚ :=
  if i = 0 then none else xs.getD (i - 1) none

/-- Embedding of the source's `compute_indicators`.  The parameters
`trend_length`, `rsi_upper`, `rsi_lower` and `use_trend_filter` appear in
the Python signature (with defaults 50, 80, 20, True) but are never read
by the function body, which is mirrored here by accepting and ignoring
them. -/
def compute_indicators (bars : List Bar)
    (ma_length rsi_length signal_length trend_length : ℕ)
    (rsi_upper rsi_lower : ℚ) (use_trend_filter : Bool) : List IndRow :=
  let closes := bars.map fun b => some b.Close
  let maL := ema closes ma_length
  let rsiMaL := rsi maL rsi_length
  let rsiSigL := ema rsiMaL signal_length
  (List.range bars.length).map fun i =>
    let b := bars.getD i default
    let rm := rsiMaL.getD i none
    let sg := rsiSigL.getD i none
    { date := b.date, Open := b.Open, Close := b.Close,
      ma := maL.getD i none, rsi_ma := rm, rsi_signal := sg,
      cross_up := optGT rm sg && optLE (shiftAt rsiMaL i) (shiftAt rsiSigL i),
      cross_down := optLT rm sg && optGE (shiftAt rsiMaL i) (shiftAt rsiSigL i) }

/-- One completed round trip recorded by `generate_trades`; the fields of
the per-trade dict in the source. -/
structure Trade where
  signal_date : ℚ
  entry_date : ℚ
  exit_date : ℚ
  direction : String
  entry_open : ℚ
  exit_close : ℚ
  return_pct : ℚ
  point_gain : ℚ
deriving DecidableEq, Repr, Inhabited

/-- The trade dict appended by the long branch of `generate_trades`: entry
at the cross-up bar's own date and `Open`, exit at the cross-down bar's
date and `Close`. -/
def mkLongTrade (e r : IndRow) : Trade :=
  { signal_date := e.date, entry_date := e.date, exit_date := r.date,
    direction := "long", entry_open := e.Open, exit_close := r.Close,
    return_pct := (r.Close - e.Open) / e.Open * 100,
    point_gain := r.Close - e.Open }

/-- The trade dict appended by the short branch of `generate_trades`. -/
def mkShortTrade (e r : IndRow) : Trade :=
  { signal_date := e.date, entry_date := e.date, exit_date := r.date,
    direction := "short", entry_open := e.Open, exit_close := r.Close,
    return_pct := (e.Open - r.Close) / e.Open * 100,
    point_gain := e.Open - r.Close }

/-- The flat/in-position scan shared by both branches of `generate_trades`
and by `simulate_band`: from the flat state (`none`), a bar satisfying the
entry flag opens a position holding that bar; from the open state
(`some e`), a bar satisfying the exit flag emits `mk e r` and returns to
flat.  The entry bar itself is never tested for exit (the source uses
`elif` / nested `if`), and a position still open when the list ends is
dropped. -/
def scanTrades {T : Type} (entF exitF : IndRow → Bool) (mk : IndRow → IndRow → T) :
    Option IndRow → List IndRow → List T
  | _, [] => []
  | none, r :: rest =>
    if entF r then scanTrades entF exitF mk (some r) rest
    else scanTrades entF exitF mk none rest
  | some e, r :: rest =>
    if exitF r then mk e r :: scanTrades entF exitF mk none rest
    else scanTrades entF exitF mk (some e) rest

/-- Embedding of the source's `generate_trades(df, direction)`.  The loop
`for i in range(1, len(df))` never inspects row 0 (the `row_prev` local is
dead code), hence the scan runs over `df.drop 1`.  A direction other than
the strings long/short matches neither `if` block, so the loop completes
with no effect and an empty trade list is returned. -/
def generate_trades (df : List IndRow) (direction : String) : List Trade :=
  if direction = "long" then
    scanTrades (fun r => r.cross_up) (fun r => r.cross_down) mkLongTrade none (df.drop 1)
  else if direction = "short" then
    scanTrades (fun r => r.cross_down) (fun r => r.cross_up) mkShortTrade none (df.drop 1)
  else []

/-- One trade dict built by `simulate_band` (long-only, entry and exit both
at the bar's `Close`). -/
structure BandTrade where
  entry_date : ℚ
  exit_date : ℚ
  entry_open : ℚ
  exit_close : ℚ
  point_gain : ℚ
  return_pct : ℚ
deriving DecidableEq, Repr, Inhabited

/-- The chained comparison `low <= row["rsi_ma"] <= high` of
`simulate_band`; false when `rsi_ma` is NaN. -/
def bandOK (low high : ℚ) (r : IndRow) : Bool :=
  match r.rsi_ma with
  | some v => decide (low ≤ v) && decide (v ≤ high)
  | none => false

/-- The trade dict appended by `simulate_band`: entry price is the entry
bar's `Close` (stored in the `entry_open` key), exit at the exit bar's
`Close`. -/
def mkBandTrade (e r : IndRow) : BandTrade :=
  { entry_date := e.date, exit_date := r.date, entry_open := e.Close,
    exit_close := r.Close, point_gain := r.Close - e.Close,
    return_pct := (r.Close - e.Close) / e.Close * 100 }

/-- The internal trade list accumulated by `simulate_band(df_ind, low,
high)`: same loop shape as `generate_trades` (from index 1), entry requires
`cross_up` and the rsi band, exit requires `cross_down`. -/
def simulate_band_trades (df : List IndRow) (low high : ℚ) : List BandTrade :=
  scanTrades (fun r => r.cross_up && bandOK low high r) (fun r => r.cross_down)
    mkBandTrade none (df.drop 1)

/-- The dict returned by `simulate_band`: summed points, summed percentage
returns, and the trade count (all zero when no trade completed). -/
structure BandStats where
  points : ℚ
  pct_sum : ℚ
  trades : ℕ
deriving DecidableEq, Repr

/-- Embedding of the source's `simulate_band` return value. -/
def simulate_band (df : List IndRow) (low high : ℚ) : BandStats :=
  let ts := simulate_band_trades df low high
  { points := (ts.map fun t => t.point_gain).sum,
    pct_sum := (ts.map fun t => t.return_pct).sum,
    trades := ts.length }

/-- The spec's EMA recurrence, transcribed from the spec's words for
comparison with the source's `ema`: given the previous output `prev`, the
next output is `α·x + (1-α)·prev`.  (Auxiliary tail of
`emaSpecRecurrence`.) -/
def emaRecAux (a : ℚ) : ℚ → List ℚ → List ℚ
  | _, [] => []
  | prev, x :: xs =>
    let y := a * x + (1 - a) * prev
    y :: emaRecAux a y xs

/-- The spec's EMA recurrence, transcribed from the spec's words:
`ema[0] = x[0]` and `ema[t] = α·x[t] + (1-α)·ema[t-1]`. -/
def emaSpecRecurrence (a : ℚ) : List ℚ → List ℚ
  | [] => []
  | x :: xs => x :: emaRecAux a x xs

/-- The spec scenario's five close prices 100, 105, 103, 108, 107, with
arbitrary distinct opens and dates 1..5. -/
def scenBars : List Bar :=
  [⟨1, 100, 100⟩, ⟨2, 104, 105⟩, ⟨3, 102, 103⟩, ⟨4, 107, 108⟩, ⟨5, 106, 107⟩]

/-- A six-bar series with monotonically increasing closes, used to evaluate
the pipeline with small lengths (ma 1, rsi 2, signal 3). -/
def monoBars : List Bar :=
  [⟨1, 1, 1⟩, ⟨2, 2, 2⟩, ⟨3, 3, 3⟩, ⟨4, 4, 4⟩, ⟨5, 5, 5⟩, ⟨6, 6, 6⟩]

/-- A concrete indicator row with no signal flags (bar 0 of the fixture;
`generate_trades` never reads it). -/
def rowA : IndRow :=
  { date := 1, Open := 10, Close := 11, ma := none, rsi_ma := none,
    rsi_signal := none, cross_up := false, cross_down := false }

/-- A concrete indicator row carrying a `cross_up` flag, with `rsi_ma`
inside the band [30, 70]. -/
def rowB : IndRow :=
  { date := 2, Open := 20, Close := 21, ma := some 21, rsi_ma := some 50,
    rsi_signal := some 40, cross_up := true, cross_down := false }

/-- A concrete indicator row carrying a `cross_down` flag. -/
def rowC : IndRow :=
  { date := 3, Open := 29, Close := 30, ma := some 30, rsi_ma := some 35,
    rsi_signal := some 40, cross_up := false, cross_down := true }

/-- A three-row indicator fixture on which the long scan completes exactly
one round trip (enter at `rowB`, exit at `rowC`). -/
def exDf : List IndRow := [rowA, rowB, rowC]

theorem scanTrades_nil {T : Type} (entF exitF : IndRow → Bool) (mk : IndRow → IndRow → T)
    (st : Option IndRow) : scanTrades entF exitF mk st [] = [] := by
  cases st <;> rfl

/-- Every emitted trade is `mk e r` for an exit bar `r` of the scanned list
satisfying the exit flag, and an entry bar `e` that is either the carried-in
open position or a bar of the list satisfying the entry flag. -/
theorem scanTrades_mem {T : Type} (entF exitF : IndRow → Bool) (mk : IndRow → IndRow → T) :
    ∀ (l : List IndRow) (st : Option IndRow) (t : T),
      t ∈ scanTrades entF exitF mk st l →
      ∃ e r, r ∈ l ∧ exitF r = true ∧ t = mk e r ∧
        (st = some e ∨ (e ∈ l ∧ entF e = true)) := by
  intro l
  induction l with
  | nil =>
    intro st t ht
    rw [scanTrades_nil] at ht
    exact absurd ht (List.not_mem_nil t)
  | cons r rest ih =>
    intro st t ht
    match st with
    | none =>
      by_cases h : entF r = true
      · rw [scanTrades, if_pos h] at ht
        obtain ⟨e, r', hr', hex, hmk, hst⟩ := ih (some r) t ht
        refine ⟨e, r', List.mem_cons_of_mem _ hr', hex, hmk, Or.inr ?_⟩
        rcases hst with h1 | h2
        · obtain rfl : r = e := Option.some.inj h1
          exact ⟨List.mem_cons_self _ _, h⟩
        · exact ⟨List.mem_cons_of_mem _ h2.1, h2.2⟩
      · rw [scanTrades, if_neg h] at ht
        obtain ⟨e, r', hr', hex, hmk, hst⟩ := ih none t ht
        refine ⟨e, r', List.mem_cons_of_mem _ hr', hex, hmk, Or.inr ?_⟩
        rcases hst with h1 | h2
        · exact absurd h1 (by simp)
        · exact ⟨List.mem_cons_of_mem _ h2.1, h2.2⟩
    | some e0 =>
      by_cases h : exitF r = true
      · rw [scanTrades, if_pos h] at ht
        rcases List.mem_cons.mp ht with h1 | h2
        · exact ⟨e0, r, List.mem_cons_self _ _, h, h1, Or.inl rfl⟩
        · obtain ⟨e, r', hr', hex, hmk, hst⟩ := ih none t h2
          refine ⟨e, r', List.mem_cons_of_mem _ hr', hex, hmk, ?_⟩
          rcases hst with h3 | h4
          · exact absurd h3 (by simp)
          · exact Or.inr ⟨List.mem_cons_of_mem _ h4.1, h4.2⟩
      · rw [scanTrades, if_neg h] at ht
        obtain ⟨e, r', hr', hex, hmk, hst⟩ := ih (some e0) t ht
        refine ⟨e, r', List.mem_cons_of_mem _ hr', hex, hmk, ?_⟩
        rcases hst with h3 | h4
        · exact Or.inl h3
        · exact Or.inr ⟨List.mem_cons_of_mem _ h4.1, h4.2⟩

/-- If no bar of the list satisfies the exit flag, the scan emits nothing:
a position opened along the way is dropped at the end of the list. -/
theorem scanTrades_no_exit {T : Type} (entF exitF : IndRow → Bool) (mk : IndRow → IndRow → T) :
    ∀ (l : List IndRow) (st : Option IndRow), (∀ r ∈ l, exitF r = false) →
      scanTrades entF exitF mk st l = [] := by
  intro l
  induction l with
  | nil => intro st _; exact scanTrades_nil entF exitF mk st
  | cons r rest ih =>
    intro st h
    have hr : exitF r = false := h r (List.mem_cons_self _ _)
    have htl : ∀ x ∈ rest, exitF x = false := fun x hx => h x (List.mem_cons_of_mem _ hx)
    match st with
    | none =>
      by_cases he : entF r = true
      · rw [scanTrades, if_pos he]; exact ih (some r) htl
      · rw [scanTrades, if_neg he]; exact ih none htl
    | some e =>
      rw [scanTrades, if_neg (by simp [hr])]
      exact ih (some e) htl

/-- Main ordering lemma for the scan over a date-sorted list: every trade's
entry date is bounded below by `d` and below its exit date, and consecutive
trades satisfy exit-before-next-entry. -/
theorem scanTrades_dates {T : Type} (entF exitF : IndRow → Bool)
    (mk : IndRow → IndRow → T) (ent exi : T → ℚ)
    (hmk : ∀ e r, ent (mk e r) = e.date ∧ exi (mk e r) = r.date) :
    ∀ (l : List IndRow) (st : Option IndRow) (d : ℚ),
      List.Pairwise (fun a b => a.date ≤ b.date) l →
      (∀ r ∈ l, d ≤ r.date) →
      (∀ e, st = some e → d ≤ e.date ∧ ∀ r ∈ l, e.date ≤ r.date) →
      (∀ t ∈ scanTrades entF exitF mk st l, d ≤ ent t ∧ ent t ≤ exi t) ∧
      List.Chain' (fun a b => exi a ≤ ent b) (scanTrades entF exitF mk st l) := by
  intro l
  induction l with
  | nil =>
    intro st d _ _ _
    rw [scanTrades_nil]
    exact ⟨fun t ht => absurd ht (List.not_mem_nil t), List.chain'_nil⟩
  | cons r rest ih =>
    intro st d hp hd hst
    obtain ⟨hhead, htail⟩ := List.pairwise_cons.mp hp
    have hd' : ∀ x ∈ rest, d ≤ x.date := fun x hx => hd x (List.mem_cons_of_mem _ hx)
    match st with
    | none =>
      by_cases he : entF r = true
      · rw [scanTrades, if_pos he]
        refine ih (some r) d htail hd' ?_
        intro e heq
        obtain rfl : r = e := Option.some.inj heq
        exact ⟨hd r (List.mem_cons_self _ _), hhead⟩
      · rw [scanTrades, if_neg he]
        exact ih none d htail hd' (fun e heq => absurd heq (by simp))
    | some e0 =>
      obtain ⟨hde0, he0⟩ := hst e0 rfl
      have he0r : e0.date ≤ r.date := he0 r (List.mem_cons_self _ _)
      have he0' : ∀ x ∈ rest, e0.date ≤ x.date := fun x hx => he0 x (List.mem_cons_of_mem _ hx)
      by_cases hx : exitF r = true
      · rw [scanTrades, if_pos hx]
        obtain ⟨hment, hchain⟩ :=
          ih none r.date htail hhead (fun e heq => absurd heq (by simp))
        constructor
        · intro t ht
          rcases List.mem_cons.mp ht with rfl | hmem
          · obtain ⟨h1, h2⟩ := hmk e0 r
            rw [h1, h2]
            exact ⟨hde0, he0r⟩
          · obtain ⟨hb, hbe⟩ := hment t hmem
            exact ⟨le_trans (hd r (List.mem_cons_self _ _)) hb, hbe⟩
        · rw [List.chain'_cons']
          refine ⟨fun b hb => ?_, hchain⟩
          have hbmem : b ∈ scanTrades entF exitF mk none rest := List.mem_of_mem_head? hb
          rw [(hmk e0 r).2]
          exact (hment b hbmem).1
      · rw [scanTrades, if_neg hx]
        refine ih (some e0) d htail hd' ?_
        intro e heq
        obtain rfl : e0 = e := Option.some.inj heq
        exact ⟨hde0, he0'⟩

/-- Strengthening a chain relation using a pointwise property of the
elements. -/
theorem chain_strengthen {α : Type} {R S : α → α → Prop} {P : α → Prop} :
    ∀ l : List α, List.Chain' R l → (∀ a ∈ l, P a) →
      (∀ a b, P a → R a b → S a b) → List.Chain' S l := by
  intro l
  induction l with
  | nil => intro _ _ _; exact List.chain'_nil
  | cons a l ih =>
    intro hc hp himp
    rw [List.chain'_cons'] at hc ⊢
    refine ⟨fun b hb => himp a b (hp a (List.mem_cons_self _ _)) (hc.1 b hb), ?_⟩
    exact ih hc.2 (fun x hx => hp x (List.mem_cons_of_mem _ hx)) himp

/-- The scan started flat over a date-sorted list yields trades with entry
before exit, exits before the following entries, and ascending entries. -/
theorem scanTrades_sorted {T : Type} (entF exitF : IndRow → Bool)
    (mk : IndRow → IndRow → T) (ent exi : T → ℚ)
    (hmk : ∀ e r, ent (mk e r) = e.date ∧ exi (mk e r) = r.date)
    (l : List IndRow) (hp : List.Pairwise (fun a b => a.date ≤ b.date) l) :
    (∀ t ∈ scanTrades entF exitF mk none l, ent t ≤ exi t) ∧
    List.Chain' (fun a b => exi a ≤ ent b) (scanTrades entF exitF mk none l) ∧
    List.Chain' (fun a b => ent a ≤ ent b) (scanTrades entF exitF mk none l) := by
  cases l with
  | nil =>
    rw [scanTrades_nil]
    exact ⟨fun t ht => absurd ht (List.not_mem_nil t), List.chain'_nil, List.chain'_nil⟩
  | cons r rest =>
    have hd : ∀ x ∈ r :: rest, r.date ≤ x.date := by
      intro x hx
      rcases List.mem_cons.mp hx with rfl | hm
      · exact le_refl _
      · exact (List.pairwise_cons.mp hp).1 x hm
    obtain ⟨hment, hchain⟩ :=
      scanTrades_dates entF exitF mk ent exi hmk (r :: rest) none r.date hp hd
        (fun e heq => absurd heq (by simp))
    refine ⟨fun t ht => (hment t ht).2, hchain, ?_⟩
    exact chain_strengthen _ hchain (fun t ht => (hment t ht).2)
      (fun a b hpa hr => le_trans hpa hr)

/-- C1 (counterexample): `generate_trades` does not fail fast on an
unsupported direction value.  On a concrete indicator series whose long
scan completes a round trip, the direction value `"hold"` is accepted and
a normal, empty trade list is returned — the full loop runs with neither
branch taken, contradicting the claim that an InvalidArgument condition is
raised before any scan begins. -/
theorem generate_trades_invalid_direction_counterexample :
    generate_trades exDf ("hold") = [] ∧ generate_trades exDf ("long") ≠ [] :=
  ⟨by decide, by decide⟩

/-- C1 (amended): `generate_trades` performs no direction validation; for
every direction value other than the strings long and short it returns the
empty trade list normally. -/
theorem generate_trades_unsupported_direction_empty (df : List IndRow) (direction : String)
    (h1 : direction ≠ "long") (h2 : direction ≠ "short") :
    generate_trades df direction = [] := by
  rw [generate_trades, if_neg h1, if_neg h2]

/-- Witness for C1's amended theorem at a concrete series and direction. -/
theorem generate_trades_unsupported_direction_empty_witness :
    generate_trades exDf ("diag") = [] :=
  generate_trades_unsupported_direction_empty exDf ("diag") (by decide) (by decide)

/-- C3 (counterexample): on the concrete five-bar series, enabling the
trend filter (trend_length 50, use_trend_filter true) and disabling it
with a different trend length (trend_length 5, use_trend_filter false)
produce identical indicator output: `compute_indicators` has no trend
filter, produces no trend_ma/uptrend/downtrend columns, and its output
does not depend on those parameters, contradicting the claim. -/
theorem compute_indicators_trend_flag_no_effect :
    compute_indicators scenBars 9 14 22 50 80 20 true =
      compute_indicators scenBars 9 14 22 5 80 20 false := rfl

/-- C3 (amended): `compute_indicators` accepts the parameters
`trend_length`, `rsi_upper`, `rsi_lower`, `use_trend_filter` but never
reads them: the output is independent of all four, and no trend-related
column exists in the output row type. -/
theorem compute_indicators_ignores_trend_params (bars : List Bar)
    (ma_length rsi_length signal_length t1 t2 : ℕ)
    (u1 u2 l1 l2 : ℚ) (f1 f2 : Bool) :
    compute_indicators bars ma_length rsi_length signal_length t1 u1 l1 f1 =
      compute_indicators bars ma_length rsi_length signal_length t2 u2 l2 f2 := rfl

/-- C4 (counterexample): on the flat series 5, 5, 5 with lookback 2, the
rolling average loss at bar 1 is zero, yet `rsi` yields NaN there (the
ratio is `0/0`), not the defined value 100 — refuting the claim for bars
where the average gain is also zero. -/
theorem rsi_flat_window_nan_counterexample :
    rollMean 2 ((diffO (([5, 5, 5] : List ℚ).map some)).map lossOf) 1 = some 0 ∧
    (rsi (([5, 5, 5] : List ℚ).map some) 2).getD 1 none = none :=
  ⟨by decide, by decide⟩

/-- C4 (amended): at every bar where the rolling average loss is zero and
the rolling average gain is positive, `rsi` yields the defined value 100
(float semantics: `rs = +inf`, `100 - 100/(1+rs) = 100`); when both
averages are zero the result is NaN instead. -/
theorem rsi_avg_loss_zero_avg_gain_pos (xs : List (Option ℚ)) (length i : ℕ) (g : ℚ)
    (hi : i < xs.length)
    (hg : rollMean length ((diffO xs).map gainOf) i = some g)
    (hl : rollMean length ((diffO xs).map lossOf) i = some 0)
    (hgpos : 0 < g) :
    (rsi xs length).getD i none = some 100 := by
  have h1 : (rsi xs length).getD i none =
      (match rollMean length ((diffO xs).map gainOf) i,
             rollMean length ((diffO xs).map lossOf) i with
       | some g, some l => rsiPoint g l
       | _, _ => none) := by
    simp only [rsi]
    rw [List.getD_eq_getElem?_getD, List.getElem?_map, List.getElem?_range hi]
    rfl
  rw [h1, hg, hl]
  simp [rsiPoint, hgpos.ne']

/-- Witness for C4's amended theorem: rising series 1, 2, 3 with lookback
2 has average loss 0 and average gain 1 at bar 2, and `rsi` is 100 there. -/
theorem rsi_avg_loss_zero_avg_gain_pos_witness :
    (rsi (([1, 2, 3] : List ℚ).map some) 2).getD 2 none = some 100 :=
  rsi_avg_loss_zero_avg_gain_pos (([1, 2, 3] : List ℚ).map some) 2 2 1
    (by decide) (by decide) (by decide) (by decide)

/-- Auxiliary for C5: from a seeded state (weight 1), the pandas
exponentially weighted mean over a NaN-free series is exactly the spec's
recurrence tail. -/
theorem ewmRun_all_some (a : ℚ) :
    ∀ (xs : List ℚ) (w : ℚ),
      ewmRun a { weighted := some w, old_wt := 1 } (xs.map some) =
        (emaRecAux a w xs).map some := by
  intro xs
  induction xs with
  | nil => intro w; rfl
  | cons x xs ih =>
    intro w
    have hval : (1 * (1 - a) * w + a * x) / (1 * (1 - a) + a) = a * x + (1 - a) * w := by
      have h1 : (1 : ℚ) * (1 - a) + a = 1 := by ring
      rw [h1, div_one]; ring
    simp only [List.map_cons, ewmRun, ewmStep, emaRecAux]
    rw [hval, ih]

/-- C5: the source's `ema` (pandas `ewm(span=length, adjust=False).mean()`)
satisfies the spec's recurrence `ema[0] = x[0]`,
`ema[t] = α·x[t] + (1-α)·ema[t-1]` with `α = 2/(length+1)`, for every
input sequence and length. -/
theorem ema_matches_spec_recurrence (x : List ℚ) (length : ℕ) :
    ema (x.map some) length =
      (emaSpecRecurrence (2 / ((length : ℚ) + 1)) x).map some := by
  cases x with
  | nil => rfl
  | cons a xs =>
    simp only [ema, emaSpecRecurrence, List.map_cons, ewmRun, ewmStep]
    rw [ewmRun_all_some]

/-- Pandas-style strict comparisons in the two directions cannot both hold. -/
theorem optGT_optLT_exclusive (x y : Option ℚ) :
    ¬(optGT x y = true ∧ optLT x y = true) := by
  cases x <;> cases y <;> simp [optGT, optLT]
  exact fun h1 => le_of_lt h1

/-- C6: in every output of `compute_indicators`, `cross_up` and
`cross_down` are never simultaneously true on the same bar, and both are
false on bar 0 of the series (the shifted previous values are NaN there,
and comparisons against NaN are false). -/
theorem compute_indicators_cross_flags (bars : List Bar)
    (ma_length rsi_length signal_length trend_length : ℕ)
    (rsi_upper rsi_lower : ℚ) (use_trend_filter : Bool) :
    (∀ row ∈ compute_indicators bars ma_length rsi_length signal_length trend_length
        rsi_upper rsi_lower use_trend_filter,
      ¬(row.cross_up = true ∧ row.cross_down = true)) ∧
    (∀ row0, (compute_indicators bars ma_length rsi_length signal_length trend_length
        rsi_upper rsi_lower use_trend_filter).head? = some row0 →
      row0.cross_up = false ∧ row0.cross_down = false) := by
  constructor
  · intro row hrow
    simp only [compute_indicators, List.mem_map] at hrow
    obtain ⟨i, hi, rfl⟩ := hrow
    rintro ⟨h1, h2⟩
    rw [Bool.and_eq_true] at h1 h2
    exact optGT_optLT_exclusive _ _ ⟨h1.1, h2.1⟩
  · intro row0 h0
    cases bars with
    | nil => simp [compute_indicators] at h0
    | cons b bs =>
      simp only [compute_indicators, List.length_cons, List.range_succ_eq_map,
        List.map_cons, List.head?_cons, Option.some.injEq] at h0
      rw [← h0]
      constructor
      · show (_ && optLE (shiftAt _ 0) (shiftAt _ 0)) = false
        simp [shiftAt, optLE]
      · show (_ && optGE (shiftAt _ 0) (shiftAt _ 0)) = false
        simp [shiftAt, optGE]

/-- Witness for C6 at the concrete five-bar series with the default
parameters: the first output row has both crossover flags false, and no
row carries both flags. -/
theorem compute_indicators_cross_flags_witness :
    ((compute_indicators scenBars 9 14 22 50 80 20 true).getD 0 default).cross_up = false ∧
    ((compute_indicators scenBars 9 14 22 50 80 20 true).getD 0 default).cross_down = false ∧
    ¬(((compute_indicators scenBars 9 14 22 50 80 20 true).getD 0 default).cross_up = true ∧
      ((compute_indicators scenBars 9 14 22 50 80 20 true).getD 0 default).cross_down = true) := by
  obtain ⟨hexcl, hbar0⟩ := compute_indicators_cross_flags scenBars 9 14 22 50 80 20 true
  obtain ⟨hu, hd⟩ :=
    hbar0 ((compute_indicators scenBars 9 14 22 50 80 20 true).getD 0 default) (by decide)
  exact ⟨hu, hd,
    hexcl ((compute_indicators scenBars 9 14 22 50 80 20 true).getD 0 default) (by decide)⟩

/-- C7: for every date-sorted indicator series and every direction, the
trade list of `generate_trades` consists of trades whose entry is no later
than their exit, consecutive trades satisfy
`trade[i].exit_date ≤ trade[i+1].entry_date` (non-overlapping), and the
list is ordered by entry_date ascending. -/
theorem generate_trades_nonoverlapping_ordered (df : List IndRow) (direction : String)
    (hs : List.Pairwise (fun a b => a.date ≤ b.date) df) :
    (∀ t ∈ generate_trades df direction, t.entry_date ≤ t.exit_date) ∧
    List.Chain' (fun a b => a.exit_date ≤ b.entry_date) (generate_trades df direction) ∧
    List.Chain' (fun a b => a.entry_date ≤ b.entry_date) (generate_trades df direction) := by
  have hs' : List.Pairwise (fun a b => a.date ≤ b.date) (df.drop 1) :=
    hs.sublist (List.drop_sublist 1 df)
  by_cases h1 : direction = "long"
  · rw [generate_trades, if_pos h1]
    exact scanTrades_sorted _ _ mkLongTrade (fun t => t.entry_date) (fun t => t.exit_date)
      (fun e r => ⟨rfl, rfl⟩) _ hs'
  · by_cases h2 : direction = "short"
    · rw [generate_trades, if_neg h1, if_pos h2]
      exact scanTrades_sorted _ _ mkShortTrade (fun t => t.entry_date) (fun t => t.exit_date)
        (fun e r => ⟨rfl, rfl⟩) _ hs'
    · rw [generate_trades, if_neg h1, if_neg h2]
      exact ⟨fun t ht => absurd ht (List.not_mem_nil t), List.chain'_nil, List.chain'_nil⟩

/-- Witness for C7 at the concrete three-row fixture (one completed long
round trip) in the long direction. -/
theorem generate_trades_nonoverlapping_ordered_witness :
    (∀ t ∈ generate_trades exDf ("long"), t.entry_date ≤ t.exit_date) ∧
    List.Chain' (fun a b => a.exit_date ≤ b.entry_date) (generate_trades exDf ("long")) ∧
    List.Chain' (fun a b => a.entry_date ≤ b.entry_date) (generate_trades exDf ("long")) :=
  generate_trades_nonoverlapping_ordered exDf ("long") (by decide)

/-- C8: `generate_trades` emits a trade only for a completed entry→exit
pair (each trade comes from an entry-flag bar and an exit-flag bar of the
series); if no exit flag ever fires, the result is empty even when entries
occur, the open position being silently dropped; and on a monotonically
increasing close series (closes 1..6, ma_length 1, rsi_length 2,
signal_length 3) the long direction produces zero trades. -/
theorem generate_trades_completed_pairs_only :
    (∀ (df : List IndRow) (t : Trade), t ∈ generate_trades df ("long") →
      ∃ e ∈ df, ∃ r ∈ df, e.cross_up = true ∧ r.cross_down = true ∧ t = mkLongTrade e r) ∧
    (∀ (df : List IndRow) (t : Trade), t ∈ generate_trades df ("short") →
      ∃ e ∈ df, ∃ r ∈ df, e.cross_down = true ∧ r.cross_up = true ∧ t = mkShortTrade e r) ∧
    (∀ df : List IndRow, (∀ r ∈ df, r.cross_down = false) →
      generate_trades df ("long") = []) ∧
    (∀ df : List IndRow, (∀ r ∈ df, r.cross_up = false) →
      generate_trades df ("short") = []) ∧
    generate_trades (compute_indicators monoBars 1 2 3 50 80 20 true) ("long") = [] := by
  refine ⟨?_, ?_, ?_, ?_, by decide⟩
  · intro df t ht
    rw [generate_trades, if_pos rfl] at ht
    obtain ⟨e, r, hr, hex, rfl, hst⟩ := scanTrades_mem _ _ _ _ _ _ ht
    rcases hst with h | ⟨hmem, hflag⟩
    · exact absurd h (by simp)
    · exact ⟨e, List.drop_subset _ _ hmem, r, List.drop_subset _ _ hr, hflag, hex, rfl⟩
  · intro df t ht
    rw [generate_trades, if_neg (by decide), if_pos rfl] at ht
    obtain ⟨e, r, hr, hex, rfl, hst⟩ := scanTrades_mem _ _ _ _ _ _ ht
    rcases hst with h | ⟨hmem, hflag⟩
    · exact absurd h (by simp)
    · exact ⟨e, List.drop_subset _ _ hmem, r, List.drop_subset _ _ hr, hflag, hex, rfl⟩
  · intro df h
    rw [generate_trades, if_pos rfl]
    exact scanTrades_no_exit _ _ _ _ none (fun r hr => h r (List.drop_subset _ _ hr))
  · intro df h
    rw [generate_trades, if_neg (by decide), if_pos rfl]
    exact scanTrades_no_exit _ _ _ _ none (fun r hr => h r (List.drop_subset _ _ hr))

/-- Witness for C8 at a concrete two-row series whose second row fires
`cross_up` but no row ever fires `cross_down`: the opened position is
dropped and no trade is reported. -/
theorem generate_trades_completed_pairs_only_witness :
    generate_trades [rowA, rowB] ("long") = [] :=
  generate_trades_completed_pairs_only.2.2.1 [rowA, rowB] (by decide)

/-- C2 (counterexample): on the spec's own 5-bar scenario (closes 100,
105, 103, 108, 107, ma_length 1, remaining parameters at their defaults),
the rolling RSI's 14-bar warm-up exceeds the series length, so `cross_up`
is false on every bar, no long entry ever occurs and the trade list is
empty — refuting the claim that exactly one long entry occurs with a
next-bar entry price. -/
theorem scenario_no_entry_counterexample :
    ((compute_indicators scenBars 1 14 22 50 80 20 true).map fun r => r.cross_up) =
      [false, false, false, false, false] ∧
    generate_trades (compute_indicators scenBars 1 14 22 50 80 20 true) ("long") = [] :=
  ⟨by decide, by decide⟩

/-- C2 (amended): every long trade of `generate_trades` records its entry
on the cross_up bar itself — `signal_date = entry_date =` that bar's date
and `entry_open =` that same bar's `Open` (same-bar entry, not next-bar);
and on the spec's 5-bar scenario no entry occurs at all because the
14-bar rolling RSI warm-up leaves every crossover flag false. -/
theorem long_entry_same_bar_open :
    (∀ (df : List IndRow) (t : Trade), t ∈ generate_trades df ("long") →
      ∃ e ∈ df, e.cross_up = true ∧ t.signal_date = e.date ∧ t.entry_date = e.date ∧
        t.entry_open = e.Open) ∧
    generate_trades (compute_indicators scenBars 1 14 22 50 80 20 true) ("long") = [] := by
  constructor
  · intro df t ht
    rw [generate_trades, if_pos rfl] at ht
    obtain ⟨e, r, hr, hex, rfl, hst⟩ := scanTrades_mem _ _ _ _ _ _ ht
    rcases hst with h | ⟨hmem, hflag⟩
    · exact absurd h (by simp)
    · exact ⟨e, List.drop_subset _ _ hmem, hflag, rfl, rfl, rfl⟩
  · decide

/-- Witness for C2's amended theorem at the concrete fixture: the single
emitted long trade enters at the cross_up bar `rowB`'s date and `Open`. -/
theorem long_entry_same_bar_open_witness :
    ∃ e ∈ exDf, e.cross_up = true ∧ (mkLongTrade rowB rowC).signal_date = e.date ∧
      (mkLongTrade rowB rowC).entry_date = e.date ∧
      (mkLongTrade rowB rowC).entry_open = e.Open :=
  long_entry_same_bar_open.1 exDf (mkLongTrade rowB rowC) (by decide)

/-- Unfolding of the chained band comparison of `simulate_band`. -/
theorem bandOK_spec (low high : ℚ) (r : IndRow) (h : bandOK low high r = true) :
    ∃ v, r.rsi_ma = some v ∧ low ≤ v ∧ v ≤ high := by
  cases hv : r.rsi_ma with
  | none => simp [bandOK, hv] at h
  | some v =>
    simp only [bandOK, hv, Bool.and_eq_true, decide_eq_true_eq] at h
    exact ⟨v, rfl, h.1, h.2⟩

/-- C9: in `simulate_band`, every trade enters on a bar of the series
where `cross_up` is true AND `low ≤ rsi_ma ≤ high` holds at that signal
bar (recording that bar's date and `Close`), and exits on a bar where
`cross_down` is true — the same exit condition as the basic strategy. -/
theorem simulate_band_entry_within_band_exit_cross_down (df : List IndRow) (low high : ℚ) :
    (∀ t ∈ simulate_band_trades df low high,
      ∃ e ∈ df, e.cross_up = true ∧ (∃ v, e.rsi_ma = some v ∧ low ≤ v ∧ v ≤ high) ∧
        t.entry_date = e.date ∧ t.entry_open = e.Close) ∧
    (∀ t ∈ simulate_band_trades df low high,
      ∃ r ∈ df, r.cross_down = true ∧ t.exit_date = r.date ∧ t.exit_close = r.Close) := by
  constructor
  · intro t ht
    rw [simulate_band_trades] at ht
    obtain ⟨e, r, hr, hex, rfl, hst⟩ := scanTrades_mem _ _ _ _ _ _ ht
    rcases hst with h | ⟨hmem, hflag⟩
    · exact absurd h (by simp)
    · rw [Bool.and_eq_true] at hflag
      exact ⟨e, List.drop_subset _ _ hmem, hflag.1, bandOK_spec low high e hflag.2, rfl, rfl⟩
  · intro t ht
    rw [simulate_band_trades] at ht
    obtain ⟨e, r, hr, hex, rfl, _⟩ := scanTrades_mem _ _ _ _ _ _ ht
    exact ⟨r, List.drop_subset _ _ hr, hex, rfl, rfl⟩

/-- Witness for C9 at the concrete fixture with band [30, 70]: the single
band trade enters at `rowB` (`cross_up`, `rsi_ma = 50` within the band). -/
theorem simulate_band_entry_within_band_witness :
    ∃ e ∈ exDf, e.cross_up = true ∧
      (∃ v, e.rsi_ma = some v ∧ (30 : ℚ) ≤ v ∧ v ≤ 70) ∧
      (mkBandTrade rowB rowC).entry_date = e.date ∧
      (mkBandTrade rowB rowC).entry_open = e.Close :=
  (simulate_band_entry_within_band_exit_cross_down exDf 30 70).1
    (mkBandTrade rowB rowC) (by decide)

/-- Multiplying by a positive constant preserves the sign of a rational. -/
theorem mul_pos_const_sign (p k : ℚ) (hk : 0 < k) :
    (0 < p * k ↔ 0 < p) ∧ (p * k < 0 ↔ p < 0) := by
  constructor
  · rw [mul_pos_iff]
    constructor
    · rintro (⟨h, _⟩ | ⟨_, hneg⟩)
      · exact h
      · exact absurd hk (not_lt.mpr hneg.le)
    · exact fun h => Or.inl ⟨h, hk⟩
  · rw [mul_neg_iff]
    constructor
    · rintro (⟨_, hneg⟩ | ⟨h, _⟩)
      · exact absurd hk (not_lt.mpr hneg.le)
      · exact h
    · exact fun h => Or.inr ⟨h, hk⟩

/-- C10: for every trade of `generate_trades` in either direction,
`return_pct = point_gain / entry_open * 100`, the point gain is
`exit_close - entry_open` for longs and `entry_open - exit_close` for
shorts, and (for positive entry prices, as the data model requires) the
percentage and point figures carry the same sign. -/
theorem return_pct_point_gain_consistent (df : List IndRow) (direction : String) (t : Trade)
    (ht : t ∈ generate_trades df direction) :
    t.return_pct = t.point_gain / t.entry_open * 100 ∧
    (direction = "long" → t.point_gain = t.exit_close - t.entry_open) ∧
    (direction = "short" → t.point_gain = t.entry_open - t.exit_close) ∧
    (0 < t.entry_open →
      ((0 < t.return_pct ↔ 0 < t.point_gain) ∧ (t.return_pct < 0 ↔ t.point_gain < 0))) := by
  by_cases h1 : direction = "long"
  · subst h1
    rw [generate_trades, if_pos rfl] at ht
    obtain ⟨e, r, _, _, rfl, _⟩ := scanTrades_mem _ _ _ _ _ _ ht
    refine ⟨rfl, fun _ => rfl, fun h => absurd h (by decide), ?_⟩
    intro ho
    have hrw : (mkLongTrade e r).return_pct =
        (mkLongTrade e r).point_gain * (100 / e.Open) := by
      show (r.Close - e.Open) / e.Open * 100 = (r.Close - e.Open) * (100 / e.Open)
      ring
    have hk : 0 < (100 : ℚ) / e.Open := div_pos (by norm_num) ho
    rw [hrw]
    exact mul_pos_const_sign _ _ hk
  · by_cases h2 : direction = "short"
    · subst h2
      rw [generate_trades, if_neg (by decide), if_pos rfl] at ht
      obtain ⟨e, r, _, _, rfl, _⟩ := scanTrades_mem _ _ _ _ _ _ ht
      refine ⟨rfl, fun h => absurd h (by decide), fun _ => rfl, ?_⟩
      intro ho
      have hrw : (mkShortTrade e r).return_pct =
          (mkShortTrade e r).point_gain * (100 / e.Open) := by
        show (e.Open - r.Close) / e.Open * 100 = (e.Open - r.Close) * (100 / e.Open)
        ring
      have hk : 0 < (100 : ℚ) / e.Open := div_pos (by norm_num) ho
      rw [hrw]
      exact mul_pos_const_sign _ _ hk
    · rw [generate_trades, if_neg h1, if_neg h2] at ht
      exact absurd ht (List.not_mem_nil t)

/-- Witness for C10 at the concrete fixture's single long trade (entry 20,
exit 30, point gain 10, return 50 percent). -/
theorem return_pct_point_gain_consistent_witness :
    (mkLongTrade rowB rowC).return_pct =
        (mkLongTrade rowB rowC).point_gain / (mkLongTrade rowB rowC).entry_open * 100 ∧
    (("long" : String) = "long" →
      (mkLongTrade rowB rowC).point_gain =
        (mkLongTrade rowB rowC).exit_close - (mkLongTrade rowB rowC).entry_open) ∧
    (("long" : String) = "short" →
      (mkLongTrade rowB rowC).point_gain =
        (mkLongTrade rowB rowC).entry_open - (mkLongTrade rowB rowC).exit_close) ∧
    (0 < (mkLongTrade rowB rowC).entry_open →
      ((0 < (mkLongTrade rowB rowC).return_pct ↔ 0 < (mkLongTrade rowB rowC).point_gain) ∧
        ((mkLongTrade rowB rowC).return_pct < 0 ↔ (mkLongTrade rowB rowC).point_gain < 0))) :=
  return_pct_point_gain_consistent exDf ("long") (mkLongTrade rowB rowC) (by decide)

end RSIMA
